import Mathlib

/-!
# Verification of the tap-adwords sync engine

Shallow embedding of `tap_adwords/__init__.py` (the sync engine of the
tap-adwords extractor) and proofs about it.  Dates are modelled as natural
numbers (days since an epoch); Python dictionaries are modelled as
association lists that preserve insertion order; values that Python would
raise a `KeyError` on are modelled with `Option`.
-/

namespace TapAdwords

/-- `PAGE_SIZE = 100` from the source. -/
def PAGE_SIZE : Nat := 100

/-- `REPORTS_WITH_90_DAY_MAX` from the source: report types the remote
service refuses to query further back than 90 days. -/
def REPORTS_WITH_90_DAY_MAX : List String := ["CLICK_PERFORMANCE_REPORT"]

/-! ## Report day loop (`sync_report`, lines 141-152)

`start_date = pendulum.parse(get_start(...))`; if the stream is in
`REPORTS_WITH_90_DAY_MAX` and `start_date < utcnow() - 90 days` then
`start_date` is clamped to the cutoff; then
`while start_date <= pendulum.now(): sync_report_for_day(...); start_date += 1 day`.
`stored` is the cursor present in `STATE` at the start of the run and
`today` is the current date, both as day numbers. -/

/-- The initial day of the loop in `sync_report` after the 90-day clamp. -/
def initial_start_date (stream : String) (stored today : Nat) : Nat :=
  if stream ∈ REPORTS_WITH_90_DAY_MAX then
    if stored < today - 90 then today - 90 else stored
  else stored

/-- The list of days the `while start_date <= now` loop of `sync_report`
visits (each visit calls `sync_report_for_day` for that day), in order. -/
def reportDaysSynced (stream : String) (stored today : Nat) : List Nat :=
  let s := initial_start_date stream stored today
  if s ≤ today then List.range' s (today + 1 - s) else []

/-! ## Entity paginator (`sync_generic_endpoint`, lines 274-294)

`offset = 0`; loop: request page at `offset`; `offset += PAGE_SIZE`;
`more_pages = offset < int(page['totalNumEntries'])`.  We model a server
that reports a constant `totalNumEntries` and record the offsets at which
page requests are issued. -/

/-- One round of the `while more_pages` loop: a page request is issued at
`offset`, then the loop continues exactly when `offset + PAGE_SIZE < total`. -/
def pageLoop (total offset : Nat) : List Nat :=
  offset :: (if offset + PAGE_SIZE < total then pageLoop total (offset + PAGE_SIZE) else [])
termination_by total - offset
decreasing_by simp [PAGE_SIZE] at *; omega

/-- The offsets at which `sync_generic_endpoint` issues page requests,
starting from `offset = 0`. -/
def sync_generic_offsets (total : Nat) : List Nat :=
  pageLoop total 0

/-! ## Pre-transform coercion hook (`transform_pre_hook`, lines 172-188) -/

/-- Worker for Python's `'--' in data` substring test over the characters. -/
def dashDashAux : List Char → Bool
  | [] => false
  | [_] => false
  | c1 :: c2 :: rest => (c1 = '-' && c2 = '-') || dashDashAux (c2 :: rest)

/-- Python's `'--' in data` substring test. -/
def containsDashDash (data : String) : Bool :=
  dashDashAux data.data

/-- Python's `data.endswith(" x")`. -/
def endsWithSpaceX (data : String) : Bool :=
  match data.data.reverse with
  | 'x' :: ' ' :: _ => true
  | _ => false

/-- Python's `data[:-2]`: drop the last two characters. -/
def dropRight2 (data : String) : String :=
  String.mk data.data.dropLast.dropLast

/-- Python's `data.replace('%', '')`: remove every `'%'` character. -/
def stripPercent (data : String) : String :=
  String.mk (data.data.filter (fun c => c ≠ '%'))

/-- `transform_pre_hook(data, typ, schema)` for a string `data` (the schema
argument is unused by the source).  `none` models Python `None`; the
`data and ...` guard of the numeric branch is string truthiness, i.e.
`data ≠ ""`. -/
def transform_pre_hook (data : String) (typ : String) : Option String :=
  if containsDashDash data then
    none
  else if data ≠ "" ∧ typ = "number" then
    let d1 := if data = "> 90%" then "90.01" else data
    let d2 := if d1 = "< 10%" then "9.99" else d1
    let d3 := if endsWithSpaceX d2 then dropRight2 d2 else d2
    some (stripPercent d3)
  else some data

/-- Worker reading a digit string as a natural number. -/
def digitsToNatAux : List Char → Nat → Option Nat
  | [], n => some n
  | c :: rest, n =>
    if c.isDigit then digitsToNatAux rest (n * 10 + (c.toNat - 48)) else none

/-- Reads a non-empty digit string as a natural number. -/
def digitsToNat (l : List Char) : Option Nat :=
  if l.isEmpty then none else digitsToNatAux l 0

/-- Splits a character list at every `'.'`. -/
def splitDotAux : List Char → List Char → List (List Char)
  | [], acc => [acc.reverse]
  | c :: rest, acc =>
    if c = '.' then acc.reverse :: splitDotAux rest [] else splitDotAux rest (c :: acc)

/-- Interpretation of a decimal numeral string as a rational, used to state
what the numeral strings produced by the hook denote downstream. -/
def parseDecimal (s : String) : Option ℚ :=
  match splitDotAux s.data [] with
  | [w] => (digitsToNat w).map (fun n => (n : ℚ))
  | [w, f] =>
    match digitsToNat w, digitsToNat f with
    | some wn, some fn => some ((wn : ℚ) + (fn : ℚ) / (10 ^ f.length))
    | _, _ => none
  | _ => none

/-! ## Field selection (`should_sync` / `get_fields_to_sync`, lines 96-102)

A discovered schema's `properties` dict maps a field name to a property
dict holding (among others) `inclusion`, `description` and `field`; an
annotated schema's property dict holds an optional `selected` flag.  Both
dicts are modelled as association lists in insertion order, looked up by
first match (Python dict keys are unique). -/

/-- One property of a discovered schema (`create_schema_for_report` or a
loaded entity schema): the keys read by the sync engine. -/
structure DiscoveredProperty where
  inclusion : Option String := none
  description : String := ""
  field : String := ""
deriving DecidableEq, Repr

/-- One property of an annotated schema: `.get('selected')` truthiness. -/
structure AnnotatedProperty where
  selected : Bool := false
deriving DecidableEq, Repr

/-- A schema's `properties` dict, in insertion order. -/
abbrev DiscoveredProps := List (String × DiscoveredProperty)

/-- An annotated schema's `properties` dict, in insertion order. -/
abbrev AnnotatedProps := List (String × AnnotatedProperty)

/-- `should_sync(discovered_schema, annotated_schema, field)`.
Python evaluates `annotated['properties'][field].get('selected') or
discovered['properties'][field].get('inclusion') == 'automatic'`; a missing
key raises `KeyError`, modelled by `none`, and `or` short-circuits, so the
discovered schema is only consulted when `selected` is falsy. -/
def should_sync (discovered : DiscoveredProps) (annotated : AnnotatedProps)
    (field : String) : Option Bool :=
  match List.lookup field annotated with
  | none => none
  | some ap =>
    if ap.selected then some true
    else
      match List.lookup field discovered with
      | none => none
      | some dp => some (dp.inclusion = some "automatic")

/-- The list comprehension of `get_fields_to_sync` over a given key list:
keeps the keys for which `should_sync` is truthy, propagating a `KeyError`. -/
def fieldsToSyncAux (discovered : DiscoveredProps) (annotated : AnnotatedProps) :
    List String → Option (List String)
  | [] => some []
  | f :: rest => do
    let b ← should_sync discovered annotated f
    let tail ← fieldsToSyncAux discovered annotated rest
    pure (if b then f :: tail else tail)

/-- `get_fields_to_sync(discovered_schema, annotated_schema)`: iterates over
the keys of the ANNOTATED schema's `properties` (in its insertion order) and
keeps those passing `should_sync`. -/
def get_fields_to_sync (discovered : DiscoveredProps) (annotated : AnnotatedProps) :
    Option (List String) :=
  fieldsToSyncAux discovered annotated (annotated.map Prod.fst)

/-! ## Header-to-field mapping (`get_xml_attribute_headers`, lines 163-170)

The source builds `description_to_xml_attribute` by assigning
`d[value['description']] = key` for every schema property in order, then
assigns `d['Ad policies'] = 'policy'`.  Dict assignment overwrites, so a
lookup finds the LAST assignment for a key; we model the dict as the list
of assignments in order and look up the last match. -/

/-- Lookup in a dict built by successive assignments: the last assignment
for the key wins (`none` models a `KeyError`). -/
def lookupLast (pairs : List (String × String)) (k : String) : Option String :=
  (List.lookup k pairs.reverse)

/-- The `description_to_xml_attribute` dict of `get_xml_attribute_headers`
as its ordered list of assignments. -/
def descriptionToXmlAttribute (props : DiscoveredProps) : List (String × String) :=
  (props.map (fun kv => (kv.2.description, kv.1))) ++ [("Ad policies", "policy")]

/-- What one response column header is mapped to. -/
def headerField (props : DiscoveredProps) (header : String) : Option String :=
  lookupLast (descriptionToXmlAttribute props) header

/-- `get_xml_attribute_headers(stream_schema, description_headers)`:
maps every response column header through the description index. -/
def get_xml_attribute_headers (props : DiscoveredProps)
    (description_headers : List String) : List (Option String) :=
  description_headers.map (headerField props)

/-! ## Exclusion validation (`check_selected_fields`, lines 360-383)

The remote metadata lists, per report field: `fieldName` (the name used in
API calls), `xmlAttributeName` (the emitted property name) and an optional
`exclusiveFields` list of `fieldName`s it cannot be requested with (absent
attribute modelled as the empty list — both yield no violation). -/

/-- One field descriptor from `getReportFields`. -/
structure ReportField where
  fieldName : String
  xmlAttributeName : String
  exclusiveFields : List String := []
deriving DecidableEq, Repr

/-- The `field_map = {f.fieldName: f.xmlAttributeName for f in fields}`
dict of `check_selected_fields` (last assignment wins). -/
def fieldMap (fields : List ReportField) : String → Option String :=
  fun n => lookupLast (fields.map (fun f => (f.fieldName, f.xmlAttributeName))) n

/-- The `errors` list accumulated by `check_selected_fields`: one entry per
metadata field that is selected and has selected exclusive siblings, holding
its `xmlAttributeName` and the `field_map` translations of the selected
siblings (in metadata order, mirroring the message
`"{xml} cannot be selected with {...}"`). -/
def check_selected_fields (fields : List ReportField) (field_list : List String) :
    List (String × List (Option String)) :=
  fields.foldl
    (fun errors f =>
      if f.fieldName ∈ field_list then
        let field_errors :=
          (f.exclusiveFields.filter (fun ex => ex ∈ field_list)).map (fieldMap fields)
        if field_errors ≠ [] then errors ++ [(f.xmlAttributeName, field_errors)]
        else errors
      else errors)
    []

/-- The contribution of one metadata field to the `errors` list of
`check_selected_fields`: the singleton error entry when the field is
selected and has selected exclusive siblings, nothing otherwise. -/
def violationEntry (fields : List ReportField) (field_list : List String)
    (f : ReportField) : List (String × List (Option String)) :=
  if f.fieldName ∈ field_list then
    if (f.exclusiveFields.filter (fun ex => ex ∈ field_list)).map (fieldMap fields) ≠ []
    then [(f.xmlAttributeName,
           (f.exclusiveFields.filter (fun ex => ex ∈ field_list)).map (fieldMap fields))]
    else []
  else []

/-- The report-sync pipeline order of `sync_report` (lines 139-151):
`check_selected_fields` runs, raising on a non-empty error list, BEFORE the
day loop issues any report-download request.  Returns either the raised
error list or the list of days for which a download is issued. -/
def sync_report_model (fields : List ReportField) (field_list : List String)
    (stream : String) (stored today : Nat) :
    Except (List (String × List (Option String))) (List Nat) :=
  if check_selected_fields fields field_list ≠ [] then
    .error (check_selected_fields fields field_list)
  else .ok (reportDaysSynced stream stored today)

/-! ## JSON-like values, `strip_inclusion` and `write_schema` (lines 105-114) -/

/-- A Python JSON-like value: the shapes a schema dict can hold. -/
inductive JVal where
  | null : JVal
  | str : String → JVal
  | num : Int → JVal
  | arr : List JVal → JVal
  | obj : List (String × JVal) → JVal

mutual

/-- `strip_inclusion(dic)`: pops the key `"inclusion"`, then recurses into
every value that is a dict (`isinstance(val, dict)`); other values — lists
included — are left untouched.  Returns the post-state of the dict. -/
def strip_inclusion : JVal → JVal
  | .obj kvs => .obj (stripProps kvs)
  | v => v

/-- The body of `strip_inclusion` over the entries of a dict: the
`"inclusion"` entry is dropped, and every remaining value that is a dict is
stripped in place (`strip_inclusion` is the identity on non-dicts). -/
def stripProps : List (String × JVal) → List (String × JVal)
  | [] => []
  | (k, v) :: rest =>
    if k = "inclusion" then stripProps rest
    else (k, strip_inclusion v) :: stripProps rest

end

/-- `write_schema(stream_name, schema, primary_keys)` (lines 111-114):
`schema_copy = copy.deepcopy(schema); strip_inclusion(schema_copy);
singer.write_schema(stream_name, schema_copy, primary_keys)`.  Returns the
pair (schema handed to the record sink, caller's schema object after the
call): the strip runs on the deep copy, so the caller's object is the
original, unchanged. -/
def write_schema (schema : JVal) : JVal × JVal :=
  let schema_copy := schema
  (strip_inclusion schema_copy, schema)

mutual

/-- Whether a value still holds an `"inclusion"` key on a path that passes
only through dicts (the paths `strip_inclusion` visits). -/
def hasInclusionDictPath : JVal → Bool
  | .obj kvs => hasInclusionDictPathProps kvs
  | _ => false

/-- Entry-wise worker for `hasInclusionDictPath`. -/
def hasInclusionDictPathProps : List (String × JVal) → Bool
  | [] => false
  | (k, v) :: rest =>
    k = "inclusion" || hasInclusionDictPath v || hasInclusionDictPathProps rest

end

mutual

/-- Whether a value holds an `"inclusion"` key at ANY nesting depth,
including inside lists. -/
def hasInclusionAnywhere : JVal → Bool
  | .obj kvs => hasInclusionAnywhereProps kvs
  | .arr xs => hasInclusionAnywhereList xs
  | _ => false

/-- Entry-wise worker for `hasInclusionAnywhere`. -/
def hasInclusionAnywhereProps : List (String × JVal) → Bool
  | [] => false
  | (k, v) :: rest =>
    k = "inclusion" || hasInclusionAnywhere v || hasInclusionAnywhereProps rest

/-- Element-wise worker for `hasInclusionAnywhere`. -/
def hasInclusionAnywhereList : List JVal → Bool
  | [] => false
  | v :: rest => hasInclusionAnywhere v || hasInclusionAnywhereList rest

end

/-! ## Per-day report extraction (`sync_report_for_day`, lines 210-220)

For each row `val` of the day's CSV body (with `i` its `enumerate` index):
`obj = dict(zip(get_xml_attribute_headers(schema, headers), val))`;
`obj['customer_id'] = customer_id`; `obj = transform(obj, schema, ...)`;
`obj['_sdc_id'] = i`; `singer.write_record(stream_name, obj)`.
`singer.transform` is an external collaborator, so the model is parametric
in the transform function `tf` (the claims hold for every `tf`). -/

/-- A record as an insertion-ordered dict. -/
abbrev Record := List (String × JVal)

/-- Python dict assignment `r[k] = v`: overwrites in place if the key
exists (keeping its position), appends otherwise. -/
def setKey : Record → String → JVal → Record
  | [], k, v => [(k, v)]
  | (k1, v1) :: rest, k, v =>
    if k1 = k then (k, v) :: rest else (k1, v1) :: setKey rest k v

/-- `dict(pairs)`: successive assignments in order (later pairs win). -/
def dictOfPairs (pairs : List (String × String)) : Record :=
  pairs.foldl (fun acc kv => setKey acc kv.1 (.str kv.2)) []

/-- Sequences the header lookups: the list comprehension inside
`get_xml_attribute_headers` raises `KeyError` as soon as one header is
unknown, before any record is built. -/
def sequenceHeaders : List (Option String) → Option (List String)
  | [] => some []
  | none :: _ => none
  | some h :: rest => (sequenceHeaders rest).map (fun tl => h :: tl)

/-- The records emitted by `sync_report_for_day` for one day, given the CSV
column `headers` and data rows `values`, parametric in the external
schema-driven transform `tf`. -/
def sync_report_for_day_records (tf : Record → Record) (props : DiscoveredProps)
    (headers : List String) (values : List (List String))
    (customer_id : String) : Option (List Record) :=
  match sequenceHeaders (get_xml_attribute_headers props headers) with
  | none => none
  | some xml_headers =>
    some (values.enum.map (fun iv =>
      let obj := dictOfPairs (xml_headers.zip iv.2)
      let obj := setKey obj "customer_id" (.str customer_id)
      let obj := tf obj
      setKey obj "_sdc_id" (.num iv.1)))

/-! ## Concrete example schemas used as test inputs -/

/-- A discovered schema with properties inserted in the order `a`, `b`. -/
def discC2 : DiscoveredProps :=
  [("a", { inclusion := some "available" }), ("b", { inclusion := some "available" })]

/-- An annotated schema over the same fields with properties inserted in
the opposite order `b`, `a`, both selected. -/
def annC2 : AnnotatedProps :=
  [("b", { selected := true }), ("a", { selected := true })]

/-- A discovered report schema: `day` automatic, `clicks` available. -/
def discC7 : DiscoveredProps :=
  [("day", { inclusion := some "automatic", description := "Day", field := "Day" }),
   ("clicks", { inclusion := some "available", description := "Clicks", field := "Clicks" })]

/-- An annotation over `discC7` selecting nothing. -/
def annC7 : AnnotatedProps :=
  [("day", { selected := false }), ("clicks", { selected := false })]

/-- A report field whose metadata declares it exclusive with `CostB`. -/
def rfCostA : ReportField :=
  { fieldName := "CostA", xmlAttributeName := "costA", exclusiveFields := ["CostB"] }

/-- A report field whose metadata declares it exclusive with `CostA`. -/
def rfCostB : ReportField :=
  { fieldName := "CostB", xmlAttributeName := "costB", exclusiveFields := ["CostA"] }

/-- Remote metadata declaring `CostA` and `CostB` mutually exclusive. -/
def fieldsC5 : List ReportField := [rfCostA, rfCostB]

/-! ## Helper lemmas -/

/-- Every day visited by the report day loop is at least the initial
(post-clamp) start date. -/
lemma initial_le_of_mem_reportDaysSynced {stream : String} {stored today d : Nat}
    (hd : d ∈ reportDaysSynced stream stored today) :
    initial_start_date stream stored today ≤ d := by
  unfold reportDaysSynced at hd
  by_cases h : initial_start_date stream stored today ≤ today
  · simp only [h, if_true] at hd
    exact (List.mem_range'_1.mp hd).1
  · simp [h] at hd

/-- The stored cursor never exceeds the initial start date: the 90-day
clamp only ever moves the start forward. -/
lemma stored_le_initial (stream : String) (stored today : Nat) :
    stored ≤ initial_start_date stream stored today := by
  unfold initial_start_date
  split_ifs <;> omega

/-- `PAGE_SIZE` unfolded, for arithmetic reasoning. -/
lemma pageSize_def : PAGE_SIZE = 100 := rfl

/-- Membership in the paginator loop: an offset is requested iff it is the
starting offset or a later multiple-of-`PAGE_SIZE` step that is still below
the reported total. -/
lemma mem_pageLoop_iff (total s x : Nat) :
    x ∈ pageLoop total s ↔
      x = s ∨ ∃ k : Nat, x = s + (k + 1) * PAGE_SIZE ∧ x < total := by
  rw [pageLoop]
  by_cases h : s + PAGE_SIZE < total
  · simp only [h, if_true, List.mem_cons]
    rw [mem_pageLoop_iff total (s + PAGE_SIZE) x]
    constructor
    · rintro (rfl | rfl | ⟨k, rfl, hk⟩)
      · exact Or.inl rfl
      · refine Or.inr ⟨0, ?_, ?_⟩ <;>
          first
          | (simp only [pageSize_def] at *; omega)
          | simp only [pageSize_def] at *
          | omega
      · refine Or.inr ⟨k + 1, ?_, ?_⟩ <;>
          first
          | (simp only [pageSize_def] at *; omega)
          | simp only [pageSize_def] at *
          | omega
    · rintro (rfl | ⟨k, rfl, hk⟩)
      · exact Or.inl rfl
      · match k with
        | 0 =>
          refine Or.inr (Or.inl ?_)
          first
          | (simp only [pageSize_def] at *; omega)
          | simp only [pageSize_def] at *
          | omega
        | k + 1 =>
          refine Or.inr (Or.inr ⟨k, ?_, ?_⟩) <;>
            first
            | (simp only [pageSize_def] at *; omega)
            | simp only [pageSize_def] at *
            | omega
  · simp only [h, if_false, List.mem_cons, List.not_mem_nil, or_false]
    constructor
    · rintro rfl; exact Or.inl rfl
    · rintro (rfl | ⟨k, rfl, hk⟩)
      · rfl
      · exfalso
        first
        | (simp only [pageSize_def] at *; omega)
        | simp only [pageSize_def] at *
        | omega
termination_by total - s
decreasing_by simp only [pageSize_def] at *; omega

/-- A lookup in an association list succeeds exactly when the key occurs. -/
lemma lookup_isSome_iff {β : Type} (l : List (String × β)) (f : String) :
    (List.lookup f l).isSome ↔ f ∈ l.map Prod.fst := by
  induction l with
  | nil => simp [List.lookup]
  | cons kv rest ih =>
    obtain ⟨k, v⟩ := kv
    by_cases h : f = k
    · subst h
      simp [List.lookup]
    · have hbeq : (f == k) = false := beq_eq_false_iff_ne.mpr h
      simp only [List.lookup, hbeq, List.map_cons, List.mem_cons]
      rw [ih]
      constructor
      · exact Or.inr
      · rintro (rfl | hmem)
        · exact absurd rfl h
        · exact hmem

/-- When the comprehension of `get_fields_to_sync` raises no `KeyError`,
its result is the filter of its input keys by `should_sync`. -/
lemma fieldsToSyncAux_eq_filter (disc : DiscoveredProps) (ann : AnnotatedProps) :
    ∀ fs l, fieldsToSyncAux disc ann fs = some l →
      l = fs.filter (fun f => should_sync disc ann f == some true) := by
  intro fs
  induction fs with
  | nil =>
    intro l h
    simp only [fieldsToSyncAux, Option.some.injEq] at h
    simp [h.symm]
  | cons f rest ih =>
    intro l h
    unfold fieldsToSyncAux at h
    cases hb : should_sync disc ann f with
    | none => rw [hb] at h; simp at h
    | some b =>
      rw [hb] at h
      cases ht : fieldsToSyncAux disc ann rest with
      | none => rw [ht] at h; simp at h
      | some tail =>
        rw [ht] at h
        have h2 : some (if b = true then f :: tail else tail) = some l := h
        have h3 := Option.some.inj h2
        have htail := ih tail ht
        rw [List.filter_cons]
        cases b with
        | true =>
          simp only [if_true] at h3
          simp [hb, ← htail, ← h3]
        | false =>
          simp only [Bool.false_eq_true, if_false] at h3
          simp [hb, ← htail, ← h3]

/-- `should_sync` once the annotated property has been found. -/
lemma should_sync_lookup_some (disc : DiscoveredProps) (ann : AnnotatedProps)
    (f : String) (ap : AnnotatedProperty) (hap : List.lookup f ann = some ap) :
    should_sync disc ann f =
      if ap.selected = true then some true
      else
        match List.lookup f disc with
        | none => none
        | some dp => some (decide (dp.inclusion = some "automatic")) := by
  unfold should_sync
  rw [hap]

/-- When every key passes `should_sync` without a `KeyError`, the
comprehension of `get_fields_to_sync` succeeds. -/
lemma fieldsToSyncAux_isSome (disc : DiscoveredProps) (ann : AnnotatedProps) :
    ∀ fs, (∀ f ∈ fs, (should_sync disc ann f).isSome) →
      (fieldsToSyncAux disc ann fs).isSome := by
  intro fs
  induction fs with
  | nil => intro _; simp [fieldsToSyncAux]
  | cons f rest ih =>
    intro h
    have hf := h f (List.mem_cons_self f rest)
    have hrest := ih (fun g hg => h g (List.mem_cons_of_mem f hg))
    unfold fieldsToSyncAux
    cases hb : should_sync disc ann f with
    | none => rw [hb] at hf; simp at hf
    | some b =>
      cases ht : fieldsToSyncAux disc ann rest with
      | none => rw [ht] at hrest; simp at hrest
      | some tail => simp

/-- With duplicate-free keys, lookup returns the value of the unique
matching entry. -/
lemma lookup_eq_of_mem_nodup {β : Type} :
    ∀ (l : List (String × β)), (l.map Prod.fst).Nodup →
      ∀ k v, (k, v) ∈ l → List.lookup k l = some v := by
  intro l
  induction l with
  | nil =>
    intro _ k v h
    simp at h
  | cons kv rest ih =>
    obtain ⟨k1, v1⟩ := kv
    intro hnd k v hmem
    rw [List.map_cons, List.nodup_cons] at hnd
    rcases List.mem_cons.mp hmem with heq | hrest
    · rw [Prod.mk.injEq] at heq
      obtain ⟨rfl, rfl⟩ := heq
      simp [List.lookup]
    · have hk : k ≠ k1 := by
        rintro rfl
        have hmm : k ∈ rest.map Prod.fst := List.mem_map_of_mem Prod.fst hrest
        exact hnd.1 hmm
      have hbeq : (k == k1) = false := beq_eq_false_iff_ne.mpr hk
      simp only [List.lookup, hbeq]
      exact ih hnd.2 k v hrest

/-- `field_map[f.fieldName]` is `f`'s own `xmlAttributeName` when the
metadata's `fieldName`s are duplicate-free. -/
lemma fieldMap_eq_of_nodup (fields : List ReportField)
    (hnd : (fields.map ReportField.fieldName).Nodup)
    (f : ReportField) (hf : f ∈ fields) :
    fieldMap fields f.fieldName = some f.xmlAttributeName := by
  unfold fieldMap lookupLast
  apply lookup_eq_of_mem_nodup
  · rw [List.map_reverse, List.map_map]
    apply List.nodup_reverse.mpr
    have hcomp : (Prod.fst ∘ fun g : ReportField => (g.fieldName, g.xmlAttributeName))
        = ReportField.fieldName := rfl
    rw [hcomp]
    exact hnd
  · rw [List.mem_reverse]
    exact List.mem_map_of_mem (fun g : ReportField => (g.fieldName, g.xmlAttributeName)) hf

/-- The error accumulation of `check_selected_fields`, generalized over the
starting accumulator: the fold appends one `violationEntry` per field. -/
lemma check_foldl (fields : List ReportField) (field_list : List String) :
    ∀ (gs : List ReportField) (init : List (String × List (Option String))),
      gs.foldl
        (fun errors f =>
          if f.fieldName ∈ field_list then
            let field_errors :=
              (f.exclusiveFields.filter (fun ex => ex ∈ field_list)).map (fieldMap fields)
            if field_errors ≠ [] then errors ++ [(f.xmlAttributeName, field_errors)]
            else errors
          else errors)
        init
      = init ++ (gs.map (violationEntry fields field_list)).flatten := by
  intro gs
  induction gs with
  | nil =>
    intro init
    simp
  | cons f rest ih =>
    intro init
    rw [List.foldl_cons, ih]
    by_cases h1 : f.fieldName ∈ field_list
    · by_cases h2 :
        (f.exclusiveFields.filter (fun ex => ex ∈ field_list)).map (fieldMap fields) ≠ []
      · simp [violationEntry, h1, h2]
      · simp [violationEntry, h1, h2]
    · simp [violationEntry, h1]

/-- `check_selected_fields` is the concatenation of the per-field
violation entries, in metadata order. -/
lemma check_selected_fields_eq (fields : List ReportField) (field_list : List String) :
    check_selected_fields fields field_list
      = (fields.map (violationEntry fields field_list)).flatten := by
  unfold check_selected_fields
  rw [check_foldl]
  simp

/-- A successful lookup comes from an entry of the list. -/
lemma mem_of_lookup_eq_some {β : Type} :
    ∀ (l : List (String × β)) (k : String) (v : β),
      List.lookup k l = some v → (k, v) ∈ l := by
  intro l
  induction l with
  | nil =>
    intro k v h
    simp [List.lookup] at h
  | cons kv rest ih =>
    obtain ⟨k1, v1⟩ := kv
    intro k v h
    by_cases hk : k = k1
    · subst hk
      simp [List.lookup] at h
      rw [← h]
      exact List.mem_cons_self _ _
    · have hbeq : (k == k1) = false := beq_eq_false_iff_ne.mpr hk
      simp only [List.lookup, hbeq] at h
      exact List.mem_cons_of_mem _ (ih k v h)

/-- Looking up the key just assigned by `setKey` returns the new value. -/
lemma lookup_setKey (r : Record) (k : String) (v : JVal) :
    List.lookup k (setKey r k v) = some v := by
  induction r with
  | nil => simp [setKey, List.lookup]
  | cons kv rest ih =>
    obtain ⟨k1, v1⟩ := kv
    unfold setKey
    by_cases h : k1 = k
    · rw [if_pos h]
      simp [List.lookup]
    · rw [if_neg h]
      have hbeq : (k == k1) = false := beq_eq_false_iff_ne.mpr (Ne.symm h)
      simp only [List.lookup, hbeq]
      exact ih

mutual

/-- After `strip_inclusion`, no `"inclusion"` key survives on any path
through nested dicts. -/
lemma strip_inclusion_clean : (v : JVal) →
    hasInclusionDictPath (strip_inclusion v) = false
  | .obj kvs => by
    simp only [strip_inclusion, hasInclusionDictPath]
    exact stripProps_clean kvs
  | .null => by simp [strip_inclusion, hasInclusionDictPath]
  | .str s => by simp [strip_inclusion, hasInclusionDictPath]
  | .num n => by simp [strip_inclusion, hasInclusionDictPath]
  | .arr xs => by simp [strip_inclusion, hasInclusionDictPath]

/-- Entry-wise version of `strip_inclusion_clean`. -/
lemma stripProps_clean : (l : List (String × JVal)) →
    hasInclusionDictPathProps (stripProps l) = false
  | [] => by simp [stripProps, hasInclusionDictPathProps]
  | (k, v) :: rest => by
    by_cases hk : k = "inclusion"
    · simp only [stripProps, if_pos hk]
      exact stripProps_clean rest
    · simp only [stripProps, if_neg hk, hasInclusionDictPathProps]
      simp [hk, strip_inclusion_clean v, stripProps_clean rest]

end

/-! ## Claims -/

/-- C1, counterexample: with a stored cursor of day 5 and today = day 10,
the day loop of `sync_report` DOES visit a day `≤` the stored cursor — it
re-syncs day 5 itself, so a re-run produces that day's records again.  This
refutes the claim that the loop never re-visits a day `≤` the stored
cursor (the cursor is the LAST synced day, not the next unsynced one). -/
theorem c1_counterexample :
    ¬ (∀ d ∈ reportDaysSynced "CAMPAIGN_PERFORMANCE_REPORT" 5 10, ¬ d ≤ 5) := by
  intro h
  exact h 5 (by decide) (by decide)

/-- C1, amended: the day loop of `sync_report` never re-visits a day
STRICTLY below the stored cursor present at the start of the run; the day
equal to the stored cursor is visited again (at-least-once semantics). -/
theorem c1_amended_no_day_before_cursor (stream : String) (stored today d : Nat)
    (hd : d ∈ reportDaysSynced stream stored today) : stored ≤ d :=
  le_trans (stored_le_initial stream stored today) (initial_le_of_mem_reportDaysSynced hd)

/-- Witness for C1: day 5 is visited when the stored cursor is 5 and
today is 10, and the amended bound holds there. -/
theorem c1_witness :
    5 ∈ reportDaysSynced "CAMPAIGN_PERFORMANCE_REPORT" 5 10 ∧ 5 ≤ 5 :=
  ⟨by decide, c1_amended_no_day_before_cursor "CAMPAIGN_PERFORMANCE_REPORT" 5 10 5 (by decide)⟩

/-- C3: for a stream in `REPORTS_WITH_90_DAY_MAX`, no visited day precedes
`today − 90`; the initial day is the cutoff when the stored cursor predates
it and the stored cursor otherwise. -/
theorem c3_ninety_day_clamp (stream : String) (stored today : Nat)
    (hs : stream ∈ REPORTS_WITH_90_DAY_MAX) :
    (∀ d ∈ reportDaysSynced stream stored today, today - 90 ≤ d)
    ∧ (stored < today - 90 → initial_start_date stream stored today = today - 90)
    ∧ (today - 90 ≤ stored → initial_start_date stream stored today = stored) := by
  have hinit : today - 90 ≤ initial_start_date stream stored today := by
    unfold initial_start_date
    simp only [hs, if_true]
    split_ifs <;> omega
  refine ⟨fun d hd => le_trans hinit (initial_le_of_mem_reportDaysSynced hd), ?_, ?_⟩
  · intro h
    unfold initial_start_date
    simp only [hs, if_true]
    split_ifs <;> omega
  · intro h
    unfold initial_start_date
    simp only [hs, if_true]
    split_ifs <;> omega

/-- Witness for C3: `CLICK_PERFORMANCE_REPORT` with a stored cursor 200
days old (day 800, today = day 1000) starts at the cutoff, day 910. -/
theorem c3_witness :
    (∀ d ∈ reportDaysSynced "CLICK_PERFORMANCE_REPORT" 800 1000, 1000 - 90 ≤ d)
    ∧ (800 < 1000 - 90 → initial_start_date "CLICK_PERFORMANCE_REPORT" 800 1000 = 1000 - 90)
    ∧ (1000 - 90 ≤ 800 → initial_start_date "CLICK_PERFORMANCE_REPORT" 800 1000 = 800) :=
  c3_ninety_day_clamp "CLICK_PERFORMANCE_REPORT" 800 1000 (by decide)

/-- C6: with a server-reported total of 250 entries and page size 100 the
paginator performs exactly the three page requests at offsets 0, 100 and
200; and in general, after a request at some offset, the next offset is
requested exactly when the reported total exceeds it. -/
theorem c6_pagination :
    sync_generic_offsets 250 = [0, 100, 200]
    ∧ ∀ total o, o ∈ sync_generic_offsets total →
        ((o + PAGE_SIZE) ∈ sync_generic_offsets total ↔ o + PAGE_SIZE < total) := by
  constructor
  · unfold sync_generic_offsets
    rw [pageLoop, pageLoop, pageLoop]
    norm_num [PAGE_SIZE]
  · intro total o ho
    unfold sync_generic_offsets at *
    rw [mem_pageLoop_iff] at ho
    constructor
    · intro h
      rw [mem_pageLoop_iff] at h
      rcases h with h | ⟨k, hk, hlt⟩
      · exfalso; simp only [pageSize_def] at h; omega
      · exact hlt
    · intro h
      rw [mem_pageLoop_iff]
      rcases ho with rfl | ⟨k, rfl, hlt⟩
      · refine Or.inr ⟨0, ?_, h⟩
        first
        | (simp only [pageSize_def] at *; omega)
        | simp only [pageSize_def] at *
        | omega
      · refine Or.inr ⟨k + 1, ?_, h⟩
        first
        | (simp only [pageSize_def] at *; omega)
        | simp only [pageSize_def] at *
        | omega

/-- Witness for C6: offset 100 is requested for a 250-entry listing, and
the follow-up request at offset 200 happens because 200 < 250. -/
theorem c6_witness :
    (100 + PAGE_SIZE) ∈ sync_generic_offsets 250 ↔ 100 + PAGE_SIZE < 250 := by
  have h := c6_pagination
  exact h.2 250 100 (by rw [h.1]; decide)

/-- C4: the pre-transform hook nulls any string containing `"--"` whatever
the declared type; and for a numeric field it maps `"> 90%"` to the numeral
`"90.01"`, `"< 10%"` to `"9.99"`, strips a trailing `" x"` (so `"12.5 x"`
yields `"12.5"`) and strips every `'%'` (so `"50%"` yields `"50"`), the
numerals denoting 90.01, 9.99, 12.5 and 50. -/
theorem c4_pre_hook_coercions :
    (∀ data typ, containsDashDash data = true → transform_pre_hook data typ = none)
    ∧ transform_pre_hook "> 90%" "number" = some "90.01"
    ∧ transform_pre_hook "< 10%" "number" = some "9.99"
    ∧ transform_pre_hook "12.5 x" "number" = some "12.5"
    ∧ transform_pre_hook "50%" "number" = some "50"
    ∧ parseDecimal "90.01" = some (9001 / 100 : ℚ)
    ∧ parseDecimal "9.99" = some (999 / 100 : ℚ)
    ∧ parseDecimal "12.5" = some (25 / 2 : ℚ)
    ∧ parseDecimal "50" = some (50 : ℚ) := by
  refine ⟨?_, by decide, by decide, by decide, by decide, ?_, ?_, ?_, ?_⟩
  · intro data typ h
    unfold transform_pre_hook
    rw [h]
    simp
  · rw [show parseDecimal "90.01" = some ((90 : ℚ) + (1 : ℚ) / 10 ^ 2) from rfl]
    norm_num
  · rw [show parseDecimal "9.99" = some ((9 : ℚ) + (99 : ℚ) / 10 ^ 2) from rfl]
    norm_num
  · rw [show parseDecimal "12.5" = some ((12 : ℚ) + (5 : ℚ) / 10 ^ 1) from rfl]
    norm_num
  · rw [show parseDecimal "50" = some ((50 : ℚ)) from rfl]

/-- Witness for C4: the record value `"--"` (the remote null sentinel) is
nulled even for a string-typed field. -/
theorem c4_witness :
    containsDashDash "--" = true ∧ transform_pre_hook "--" "string" = none :=
  ⟨by decide, c4_pre_hook_coercions.1 "--" "string" (by decide)⟩

/-- C2, counterexample: with discovered insertion order `a`, `b` and
annotated insertion order `b`, `a` (both fields selected), the returned
list is `["b", "a"]` — the ANNOTATED schema's insertion order — while the
discovered schema's insertion order of the same included fields is
`["a", "b"]`.  This refutes the claim that the list is ordered by the
discovered schema's property insertion order. -/
theorem c2_counterexample :
    get_fields_to_sync discC2 annC2 = some ["b", "a"]
    ∧ (discC2.map Prod.fst).filter
        (fun f => should_sync discC2 annC2 f == some true) = ["a", "b"]
    ∧ (["b", "a"] : List String) ≠ ["a", "b"] :=
  ⟨by decide, by decide, by decide⟩

/-- C2, amended: the list returned by `get_fields_to_sync` is ordered by
the insertion order of the ANNOTATED schema's properties (the source
iterates `annotated_schema['properties']`): it equals the annotated key
list filtered by `should_sync`. -/
theorem c2_amended_annotation_order (disc : DiscoveredProps) (ann : AnnotatedProps)
    (l : List String) (h : get_fields_to_sync disc ann = some l) :
    l = (ann.map Prod.fst).filter (fun f => should_sync disc ann f == some true) :=
  fieldsToSyncAux_eq_filter disc ann (ann.map Prod.fst) l h

/-- Witness for C2: the amended order property at the concrete schemas. -/
theorem c2_witness :
    ["b", "a"] = (annC2.map Prod.fst).filter
      (fun f => should_sync discC2 annC2 f == some true) :=
  c2_amended_annotation_order discC2 annC2 ["b", "a"] (by decide)

/-- C7: when the annotated schema covers the discovered schema's keys and
vice versa (the annotated schema is the discovered schema overlaid with
selection flags), `get_fields_to_sync` succeeds and a field appears in the
result iff it is selected in the annotation or its discovered inclusion is
`automatic` — so every automatic field appears whatever the selection flags. -/
theorem c7_field_selection_membership (disc : DiscoveredProps) (ann : AnnotatedProps)
    (h1 : ∀ f ∈ ann.map Prod.fst, (List.lookup f disc).isSome)
    (h2 : ∀ f ∈ disc.map Prod.fst, (List.lookup f ann).isSome) :
    (get_fields_to_sync disc ann).isSome
    ∧ ∀ f, f ∈ (get_fields_to_sync disc ann).getD [] ↔
        ((∃ ap, List.lookup f ann = some ap ∧ ap.selected = true)
         ∨ (∃ dp, List.lookup f disc = some dp ∧ dp.inclusion = some "automatic")) := by
  have hsome : ∀ f ∈ ann.map Prod.fst, (should_sync disc ann f).isSome := by
    intro f hf
    obtain ⟨ap, hap⟩ := Option.isSome_iff_exists.mp ((lookup_isSome_iff ann f).mpr hf)
    obtain ⟨dp, hdp⟩ := Option.isSome_iff_exists.mp (h1 f hf)
    rw [should_sync_lookup_some disc ann f ap hap]
    by_cases hsel : ap.selected = true
    · rw [if_pos hsel]
      rfl
    · rw [if_neg hsel, hdp]
      rfl
  have hex := fieldsToSyncAux_isSome disc ann (ann.map Prod.fst) hsome
  obtain ⟨l, hl⟩ := Option.isSome_iff_exists.mp hex
  have hfilter := fieldsToSyncAux_eq_filter disc ann (ann.map Prod.fst) l hl
  constructor
  · unfold get_fields_to_sync
    rw [hl]
    rfl
  · intro f
    unfold get_fields_to_sync
    rw [hl]
    simp only [Option.getD_some]
    rw [hfilter, List.mem_filter]
    constructor
    · rintro ⟨hmem, hcond⟩
      rw [beq_iff_eq] at hcond
      obtain ⟨ap, hap⟩ := Option.isSome_iff_exists.mp ((lookup_isSome_iff ann f).mpr hmem)
      rw [should_sync_lookup_some disc ann f ap hap] at hcond
      by_cases hsel : ap.selected = true
      · exact Or.inl ⟨ap, hap, hsel⟩
      · rw [if_neg hsel] at hcond
        cases hdisc : List.lookup f disc with
        | none => rw [hdisc] at hcond; simp at hcond
        | some dp =>
          rw [hdisc] at hcond
          simp at hcond
          exact Or.inr ⟨dp, rfl, hcond⟩
    · rintro (⟨ap, hap, hsel⟩ | ⟨dp, hdp, hinc⟩)
      · have hmem : f ∈ ann.map Prod.fst :=
          (lookup_isSome_iff ann f).mp (by rw [hap]; rfl)
        refine ⟨hmem, ?_⟩
        rw [beq_iff_eq, should_sync_lookup_some disc ann f ap hap, if_pos hsel]
      · have hdiscmem : f ∈ disc.map Prod.fst :=
          (lookup_isSome_iff disc f).mp (by rw [hdp]; rfl)
        obtain ⟨ap, hap⟩ := Option.isSome_iff_exists.mp (h2 f hdiscmem)
        have hmem : f ∈ ann.map Prod.fst :=
          (lookup_isSome_iff ann f).mp (by rw [hap]; rfl)
        refine ⟨hmem, ?_⟩
        rw [beq_iff_eq, should_sync_lookup_some disc ann f ap hap]
        by_cases hsel : ap.selected = true
        · rw [if_pos hsel]
        · rw [if_neg hsel, hdp]
          simp [hinc]

/-- Witness for C7: over `discC7`/`annC7` (nothing selected), selection
succeeds and the automatic field `day` is in the result anyway. -/
theorem c7_witness :
    (get_fields_to_sync discC7 annC7).isSome
    ∧ ("day" ∈ (get_fields_to_sync discC7 annC7).getD [] ↔
        ((∃ ap, List.lookup "day" annC7 = some ap ∧ ap.selected = true)
         ∨ (∃ dp, List.lookup "day" discC7 = some dp ∧ dp.inclusion = some "automatic"))) :=
  ⟨(c7_field_selection_membership discC7 annC7 (by decide) (by decide)).1,
   (c7_field_selection_membership discC7 annC7 (by decide) (by decide)).2 "day"⟩

/-- C5: selecting two fields that the remote metadata declares mutually
exclusive makes `check_selected_fields` record an error entry naming both
fields, and `sync_report` raises it BEFORE any report-download request (no
day is synced); when no selected field's exclusive-sibling set meets the
selection, no failure is raised and the day loop runs. -/
theorem c5_exclusion_validation (fields : List ReportField) (sel : List String) :
    (∀ f1 f2 : ReportField, ∀ stream : String, ∀ stored today : Nat,
        (fields.map ReportField.fieldName).Nodup →
        f1 ∈ fields → f2 ∈ fields →
        f2.fieldName ∈ f1.exclusiveFields →
        f1.fieldName ∈ sel → f2.fieldName ∈ sel →
        ((f1.xmlAttributeName,
            (f1.exclusiveFields.filter (fun ex => ex ∈ sel)).map (fieldMap fields))
           ∈ check_selected_fields fields sel
         ∧ some f2.xmlAttributeName ∈
             (f1.exclusiveFields.filter (fun ex => ex ∈ sel)).map (fieldMap fields)
         ∧ sync_report_model fields sel stream stored today
             = .error (check_selected_fields fields sel)))
    ∧ ((∀ f ∈ fields, f.fieldName ∈ sel → ∀ ex ∈ f.exclusiveFields, ex ∉ sel) →
        (check_selected_fields fields sel = []
         ∧ ∀ stream : String, ∀ stored today : Nat,
             sync_report_model fields sel stream stored today
               = .ok (reportDaysSynced stream stored today))) := by
  constructor
  · intro f1 f2 stream stored today hnd hf1 hf2 hex hs1 hs2
    have hmemfilter : f2.fieldName ∈ f1.exclusiveFields.filter (fun ex => ex ∈ sel) :=
      List.mem_filter.mpr ⟨hex, by simpa using hs2⟩
    have hmapmem : some f2.xmlAttributeName ∈
        (f1.exclusiveFields.filter (fun ex => ex ∈ sel)).map (fieldMap fields) := by
      have heq := fieldMap_eq_of_nodup fields hnd f2 hf2
      have h0 := List.mem_map_of_mem (fieldMap fields) hmemfilter
      rw [heq] at h0
      exact h0
    have hne : ((f1.exclusiveFields.filter (fun ex => ex ∈ sel)).map (fieldMap fields)) ≠ [] :=
      List.ne_nil_of_mem hmapmem
    have hentry : violationEntry fields sel f1
        = [(f1.xmlAttributeName,
            (f1.exclusiveFields.filter (fun ex => ex ∈ sel)).map (fieldMap fields))] := by
      unfold violationEntry
      rw [if_pos hs1, if_pos hne]
    have hmemcheck : (f1.xmlAttributeName,
        (f1.exclusiveFields.filter (fun ex => ex ∈ sel)).map (fieldMap fields))
          ∈ check_selected_fields fields sel := by
      rw [check_selected_fields_eq]
      refine List.mem_flatten.mpr ⟨violationEntry fields sel f1, ?_, ?_⟩
      · exact List.mem_map_of_mem (violationEntry fields sel) hf1
      · rw [hentry]
        exact List.mem_cons_self _ _
    refine ⟨hmemcheck, hmapmem, ?_⟩
    unfold sync_report_model
    rw [if_pos (List.ne_nil_of_mem hmemcheck)]
  · intro hno
    have hcheck : check_selected_fields fields sel = [] := by
      rw [check_selected_fields_eq]
      apply List.flatten_eq_nil_iff.mpr
      intro l hl
      obtain ⟨f, hf, rfl⟩ := List.mem_map.mp hl
      unfold violationEntry
      by_cases h1 : f.fieldName ∈ sel
      · rw [if_pos h1]
        have hfil : f.exclusiveFields.filter (fun ex => ex ∈ sel) = [] := by
          apply List.filter_eq_nil_iff.mpr
          intro ex hexm
          simpa using hno f hf h1 ex hexm
        rw [hfil]
        simp
      · rw [if_neg h1]
    refine ⟨hcheck, ?_⟩
    intro stream stored today
    unfold sync_report_model
    rw [hcheck]
    simp

/-- Witness for C5: metadata declaring `CostA`/`CostB` mutually exclusive.
Selecting both records the violation and aborts before any download;
selecting only `CostA` passes the check and the day loop runs. -/
theorem c5_witness :
    ((rfCostA.xmlAttributeName,
        (rfCostA.exclusiveFields.filter
          (fun ex => ex ∈ ["CostA", "CostB"])).map (fieldMap fieldsC5))
       ∈ check_selected_fields fieldsC5 ["CostA", "CostB"]
     ∧ some rfCostB.xmlAttributeName ∈
         (rfCostA.exclusiveFields.filter
           (fun ex => ex ∈ ["CostA", "CostB"])).map (fieldMap fieldsC5)
     ∧ sync_report_model fieldsC5 ["CostA", "CostB"] "AD_PERFORMANCE_REPORT" 5 10
         = .error (check_selected_fields fieldsC5 ["CostA", "CostB"]))
    ∧ (check_selected_fields fieldsC5 ["CostA"] = []
       ∧ sync_report_model fieldsC5 ["CostA"] "AD_PERFORMANCE_REPORT" 5 10
           = .ok (reportDaysSynced "AD_PERFORMANCE_REPORT" 5 10)) :=
  ⟨(c5_exclusion_validation fieldsC5 ["CostA", "CostB"]).1 rfCostA rfCostB
      "AD_PERFORMANCE_REPORT" 5 10 (by decide) (by decide) (by decide)
      (by decide) (by decide) (by decide),
   ((c5_exclusion_validation fieldsC5 ["CostA"]).2 (by decide)).1,
   ((c5_exclusion_validation fieldsC5 ["CostA"]).2 (by decide)).2
      "AD_PERFORMANCE_REPORT" 5 10⟩

/-- C8: the header index maps the response column `"Ad policies"` to the
field `policy` whatever the schema's description strings say (the override
is assigned last, so it wins), and any other header that resolves does so
to a field whose schema description equals that header. -/
theorem c8_header_mapping (props : DiscoveredProps) (headers : List String)
    (i : Nat) (x : String) (hx : headers[i]? = some x) :
    (get_xml_attribute_headers props headers)[i]? = some (headerField props x)
    ∧ (x = "Ad policies" → headerField props x = some "policy")
    ∧ (∀ f, x ≠ "Ad policies" → headerField props x = some f →
        ∃ dp, (f, dp) ∈ props ∧ dp.description = x) := by
  refine ⟨?_, ?_, ?_⟩
  · unfold get_xml_attribute_headers
    rw [List.getElem?_map, hx]
    rfl
  · intro hxad
    subst hxad
    unfold headerField lookupLast descriptionToXmlAttribute
    rw [List.reverse_append]
    simp [List.lookup]
  · intro f hxne hf
    unfold headerField lookupLast descriptionToXmlAttribute at hf
    rw [List.reverse_append] at hf
    have hbeq : (x == "Ad policies") = false := beq_eq_false_iff_ne.mpr hxne
    simp only [List.reverse_singleton, List.singleton_append, List.lookup, hbeq] at hf
    have hmem := mem_of_lookup_eq_some _ x f hf
    have hmem2 : (x, f) ∈ (List.map (fun kv => (kv.2.description, kv.1)) props).reverse := hmem
    rw [List.mem_reverse] at hmem2
    obtain ⟨kv, hkv, heq⟩ := List.mem_map.mp hmem2
    rw [Prod.mk.injEq] at heq
    refine ⟨kv.2, ?_, heq.1⟩
    rw [← heq.2]
    exact hkv

/-- Witness for C8: a schema whose `policy` field has an unrelated
description still maps the header `"Ad policies"` to `policy`, and the
header `"Clicks"` maps to the field described as `Clicks`. -/
theorem c8_witness :
    (get_xml_attribute_headers discC7 ["Ad policies", "Clicks"])[0]?
        = some (headerField discC7 "Ad policies")
    ∧ headerField discC7 "Ad policies" = some "policy"
    ∧ (get_xml_attribute_headers discC7 ["Ad policies", "Clicks"])[1]?
        = some (headerField discC7 "Clicks")
    ∧ headerField discC7 "Clicks" = some "clicks" := by
  have h0 := c8_header_mapping discC7 ["Ad policies", "Clicks"] 0 "Ad policies" (by rfl)
  have h1 := c8_header_mapping discC7 ["Ad policies", "Clicks"] 1 "Clicks" (by rfl)
  exact ⟨h0.1, h0.2.1 rfl, h1.1, by rfl⟩

/-- C9, counterexample: an `"inclusion"` key sitting inside a dict that is
an element of a LIST value is NOT stripped by `write_schema` — the strip
recurses only through dict values — refuting the claim that every
`"inclusion"` key at every nesting depth is removed from the copy handed
to the sink. -/
theorem c9_counterexample :
    (write_schema (JVal.obj
        [("a", JVal.arr [JVal.obj [("inclusion", JVal.str "available")]])])).1
      = JVal.obj [("a", JVal.arr [JVal.obj [("inclusion", JVal.str "available")]])]
    ∧ hasInclusionAnywhere
        (write_schema (JVal.obj
          [("a", JVal.arr [JVal.obj [("inclusion", JVal.str "available")]])])).1
      = true := by
  constructor
  · show strip_inclusion (JVal.obj
        [("a", JVal.arr [JVal.obj [("inclusion", JVal.str "available")]])])
      = JVal.obj [("a", JVal.arr [JVal.obj [("inclusion", JVal.str "available")]])]
    simp [strip_inclusion, stripProps]
  · show hasInclusionAnywhere (strip_inclusion (JVal.obj
        [("a", JVal.arr [JVal.obj [("inclusion", JVal.str "available")]])])) = true
    simp [strip_inclusion, stripProps, hasInclusionAnywhere,
      hasInclusionAnywhereProps, hasInclusionAnywhereList]

/-- C9, amended: `write_schema` leaves the caller's schema object
unchanged (it strips a deep copy), and the copy handed to the sink has no
`"inclusion"` key on any path through nested dicts; `"inclusion"` keys
inside list elements are not visited and may survive. -/
theorem c9_amended_frame_and_dict_strip (schema : JVal) :
    (write_schema schema).2 = schema
    ∧ hasInclusionDictPath (write_schema schema).1 = false :=
  ⟨rfl, strip_inclusion_clean schema⟩

/-- C10: every record emitted by the per-day report extraction carries
`_sdc_id` equal to its zero-based row index, for EVERY transform function
`tf` — in particular for the schema-driven transform that drops fields
absent from the schema — because `_sdc_id` is assigned after `tf` runs. -/
theorem c10_sdc_id (tf : Record → Record) (props : DiscoveredProps)
    (headers : List String) (values : List (List String)) (cid : String)
    (recs : List Record) (i : Nat) (r : Record)
    (hsync : sync_report_for_day_records tf props headers values cid = some recs)
    (hr : recs[i]? = some r) :
    List.lookup "_sdc_id" r = some (JVal.num i) := by
  unfold sync_report_for_day_records at hsync
  cases hseq : sequenceHeaders (get_xml_attribute_headers props headers) with
  | none => rw [hseq] at hsync; simp at hsync
  | some xml_headers =>
    rw [hseq] at hsync
    simp only [Option.some.injEq] at hsync
    rw [← hsync] at hr
    rw [List.getElem?_map, List.getElem?_enum] at hr
    cases hrow : values[i]? with
    | none => rw [hrow] at hr; simp at hr
    | some row =>
      rw [hrow] at hr
      simp only [Option.map_some', Option.some.injEq] at hr
      rw [← hr]
      exact lookup_setKey _ "_sdc_id" (JVal.num i)

/-- Witness for C10: one CSV row, with a transform that drops every field;
the emitted record still carries `_sdc_id = 0`. -/
theorem c10_witness :
    sync_report_for_day_records (fun _ => []) discC7 ["Day"] [["2017-01-01"]] "123"
      = some [[("_sdc_id", JVal.num 0)]]
    ∧ List.lookup "_sdc_id" [("_sdc_id", JVal.num 0)] = some (JVal.num 0) :=
  ⟨by rfl,
   c10_sdc_id (fun _ => []) discC7 ["Day"] [["2017-01-01"]] "123"
     [[("_sdc_id", JVal.num 0)]] 0 [("_sdc_id", JVal.num 0)] (by rfl) (by rfl)⟩

end TapAdwords
